import Mathlib

/-!
# Formal model of the PDF chunking / Q&A dataset pipeline

A shallow embedding, in Lean 4, of the chunk-derivation and dataset-assembly
pipeline of the PDF Q&A generator application: the table-of-contents auto-split
algorithm, the manual chunk-add validation, the retry-protected generation
client, the QA normalizer, the batch orchestrator and the JSONL export.

Pages are 1-indexed natural numbers.  JavaScript arrays become `List`s,
`Array.prototype.sort` (stable since ES2019) becomes `List.mergeSort`,
thrown exceptions become `Except`, and the external generation endpoint is
modeled by a function giving the outcome of each call attempt.
-/

/-- Structure `Chunk` from types.ts.  The optional extracted `text` field is never read by
the modeled logic, so it is omitted.  Manual chunks have `contextTitle = none`
(the source leaves the field `undefined`). -/
structure Chunk where
  id : Nat
  startPage : Nat
  endPage : Nat
  contextTitle : Option String
deriving Repr, DecidableEq

/-- Structure `QAPair` from types.ts: the normalized, export-ready shape. -/
structure QAPair where
  input_text : String
  output_text : String
deriving Repr, DecidableEq

/-- A raw `{question, answer}` pair as returned by the generation service. -/
structure RawPair where
  question : String
  answer : String
deriving Repr, DecidableEq

/-- Function `handleAddChunk` from components/ChunkManager.tsx.  `s?` and `e?` are the
results of `parseInt` on the two form fields (`none` models `NaN`).  The result
is the error message shown, or the validated page pair handed to `addChunk`.
The checks appear in source order: positivity, start ≤ end, page-count bound,
span at most 4. -/
def handleAddChunk (s? e? : Option Int) (numPages : Nat) : Except String (Int × Int) :=
  match s?, e? with
  | some s, some e =>
    if s ≤ 0 ∨ e ≤ 0 then .error "Page numbers must be greater than 0."
    else if s > e then .error "Start page cannot be greater than end page."
    else if s > (numPages : Int) ∨ e > (numPages : Int) then
      .error ("Page number cannot be greater than " ++ toString numPages ++ ".")
    else if e - s + 1 > 4 then .error "Chunk cannot exceed 4 pages."
    else .ok (s, e)
  | _, _ => .error "Page numbers must be greater than 0."

/-- Function `addChunk` from the App component: builds the new manual chunk (id from the
counter, no context title), appends it and re-sorts the whole list by
`startPage` ascending (JS stable sort, modeled by `mergeSort`), and increments
the id counter. -/
def addChunk (prev : List Chunk) (nextChunkId : Nat) (s e : Nat) : List Chunk × Nat :=
  ((prev ++ [Chunk.mk nextChunkId s e none]).mergeSort
      (fun a b => a.startPage ≤ b.startPage),
   nextChunkId + 1)

/-! ## String primitives

Lean's built-in `String.trim`/`String.endsWith` are byte-position based and do
not reduce in the kernel, so the JS string operations are modeled directly on
the character list `String.data`. -/

/-- JS `String.prototype.trim`: strip leading and trailing whitespace. -/
def jsTrim (s : String) : String :=
  String.mk (((s.data.dropWhile Char.isWhitespace).reverse.dropWhile
    Char.isWhitespace).reverse)

/-- JS `s.endsWith(c)` for a one-character suffix: the last character is `c`. -/
def endsWithChar (s : String) (c : Char) : Bool :=
  s.data.getLast? = some c

/-- JS `s.charAt(0).toLowerCase() + s.slice(1)`: lowercase only the first
character (`charAt(0)` of the empty string is `""`). -/
def lowerFirst (s : String) : String :=
  match s.data with
  | [] => ""
  | c :: cs => String.mk (Char.toLower c :: cs)

/-- JS `String.prototype.toLowerCase` (ASCII-adequate model). -/
def jsToLower (s : String) : String :=
  String.mk (s.data.map Char.toLower)

/-- JS `s.includes(pat)`: `pat` occurs as a contiguous substring of `s`. -/
def strContains (s pat : String) : Bool :=
  (List.range (s.data.length + 1)).any (fun i => pat.data.isPrefixOf (s.data.drop i))

/-! ## QA normalization (`generateQaForChunk` in the App component) -/

/-- The context clause of `generateQaForChunk`.  The JS conditional
`chunk.contextTitle ? ... : ...` treats an absent (`undefined`, here `none`) or
empty title as falsy, selecting the document-only form.  `documentName` is the
value of `file?.name || 'this document'`. -/
def contextClause (contextTitle : Option String) (documentName : String) : String :=
  if contextTitle.getD "" ≠ "" then
    "In the section \"" ++ contextTitle.getD "" ++ "\" of the document \"" ++
      documentName ++ "\", "
  else
    "In the document \"" ++ documentName ++ "\", "

/-- The normalization in `generateQaForChunk`: drop raw pairs with a falsy
(empty) question or answer; trim the question and append `?` unless it already
ends with one; prepend the context clause, lowercasing only the question's
first character; trim the answer.  The JS map-to-`null`-then-filter is modeled
by `filterMap`. -/
def normalizePairs (rawPairs : List RawPair) (contextTitle : Option String)
    (documentName : String) : List QAPair :=
  rawPairs.filterMap fun pair =>
    if pair.question = "" ∨ pair.answer = "" then none
    else
      let q0 := jsTrim pair.question
      let questionText := if endsWithChar q0 '?' then q0 else q0 ++ "?"
      some { input_text := contextClause contextTitle documentName ++ lowerFirst questionText,
             output_text := jsTrim pair.answer }

/-- The surviving-pair shape produced by normalization (used to state the
normalizer theorems). -/
def normalizedOf (ct : Option String) (dn : String) (p : RawPair) : QAPair :=
  { input_text := contextClause ct dn ++
      lowerFirst (if endsWithChar (jsTrim p.question) '?' then jsTrim p.question
                  else jsTrim p.question ++ "?"),
    output_text := jsTrim p.answer }

/-! ## Content generator client (services/geminiService.ts) -/

/-- A JSON value, the result of `JSON.parse` on the response body.  Numeric
precision is irrelevant to the modeled checks, so numbers are `Int`. -/
inductive Json where
  | null
  | bool (b : Bool)
  | num (n : Int)
  | str (s : String)
  | arr (items : List Json)
  | obj (fields : List (String × Json))

/-- The value of an error's `status` property: the SDK surfaces a string such
as `'PERMISSION_DENIED'` on some errors and a numeric HTTP status such as
`429` on others. -/
inductive StatusVal where
  | str (s : String)
  | num (n : Int)
deriving Repr, DecidableEq

/-- The fields of an error value read by the client: `error.message`,
`error.status`, `error.error.code` and `error.error.status` (absent fields
are `none`). -/
structure ApiError where
  message : Option String
  status : Option StatusVal
  errCode : Option Int
  errStatus : Option String
deriving Repr, DecidableEq

/-- The outcome of one `ai.models.generateContent` call followed by
`response.text.trim()` and `JSON.parse`: the call threw, or the body was not
parseable JSON (with the parse error's message), or it parsed to a value. -/
inductive CallOutcome where
  | threw (e : ApiError)
  | badJson (parseMsg : String)
  | parsed (j : Json)

/-- One item of the response validation:
`typeof item === 'object' && item !== null && 'question' in item && 'answer' in item`.
A JSON array has `typeof 'object'` but no `question`/`answer` key and `null`
is excluded, so exactly the objects carrying both keys pass. -/
def isQaItem : Json → Bool
  | .obj fields =>
      fields.any (fun f => f.1 = "question") && fields.any (fun f => f.1 = "answer")
  | _ => false

/-- The response-shape validation:
`Array.isArray(parsedData) && (parsedData.length === 0 || parsedData.every(...))`. -/
def validShape : Json → Bool
  | .arr items => items.length = 0 || items.all isQaItem
  | _ => false

/-- A validation failure is thrown inside the inner `try` and re-wrapped by the
inner `catch`, so its message carries the `Failed to parse JSON response: `
prefix. -/
def formatErr : ApiError :=
  ⟨some "Failed to parse JSON response: Generated JSON does not match the required Q&A format.",
   none, none, none⟩

/-- The `try` block of one attempt, as seen by the `catch`: the parsed item
list is returned, or an error value reaches the handler — the thrown call
error itself, or a synthetic `Error` (message only, no status/code) from the
parse/validation code. -/
def attemptOnce : CallOutcome → Except ApiError (List Json)
  | .parsed (.arr items) =>
      if items.length = 0 || items.all isQaItem then .ok items else .error formatErr
  | .parsed _ => .error formatErr
  | .badJson pmsg => .error ⟨some ("Failed to parse JSON response: " ++ pmsg), none, none, none⟩
  | .threw e => .error e

/-- The value `error?.message?.toLowerCase() || ''`. -/
def lowerMsg (e : ApiError) : String :=
  (e.message.map jsToLower).getD ""

/-- The non-retriable permission/authorization test: `status` is the string
`PERMISSION_DENIED`, or the lowercased message contains `region not supported`
or `api key not valid`. -/
def isPermissionDenied (e : ApiError) : Bool :=
  (e.status == some (.str "PERMISSION_DENIED")) ||
  strContains (lowerMsg e) "region not supported" ||
  strContains (lowerMsg e) "api key not valid"

/-- The non-retriable user-location test: `error.error.code === 403` and the
lowercased message contains `user location is not supported`. -/
def isLocationUnsupported (e : ApiError) : Bool :=
  (e.errCode == some 403) && strContains (lowerMsg e) "user location is not supported"

/-- The final rate-limit classification: `status === 429` (the number) or
`error.error.status === 'RESOURCE_EXHAUSTED'`. -/
def isRateLimited (e : ApiError) : Bool :=
  (e.status == some (.num 429)) || (e.errStatus == some "RESOURCE_EXHAUSTED")

def deniedMsg : String :=
  "API access denied. This may be due to regional restrictions or an invalid/disabled API key. Please check your API key and that you are in a supported region."

def locationMsg : String :=
  "API access denied: User location is not supported for this model."

def rateMsg : String :=
  "Rate limit exceeded. The API is receiving too many requests. Please wait a moment before trying again or reduce the request frequency."

def failedMsg : String :=
  "Failed to generate Q&A pairs after 3 attempts. The model may be unavailable or the content could not be processed. Check the console for details."

def MAX_RETRIES : Nat := 3

/-- The observable result of `generateQuestionsAndAnswers`: the returned item
list or thrown error message, the backoff delays slept (in ms, in order), and
the number of API calls made. -/
structure GenResult where
  result : Except String (List Json)
  delays : List Nat
  callsMade : Nat

/-- One iteration of the retry `for` loop at 1-based attempt number `attempt`,
given the outcome `o` of this attempt's API call and, when another iteration
would follow, its aggregated result `next` (`none` models exhausted fuel and
is unreachable under sufficient fuel).  On a retriable failure before the last
attempt the backoff delay `1500 * 2 ^ (attempt - 1)` ms is slept and the next
iteration's result is accumulated; on the last attempt the final error is
classified (rate-limited vs generic). -/
def retryStep (attempt : Nat) (o : CallOutcome) (next : Option GenResult) : GenResult :=
  match attemptOnce o with
  | .ok items => ⟨.ok items, [], 1⟩
  | .error e =>
    if isPermissionDenied e then ⟨.error deniedMsg, [], 1⟩
    else if isLocationUnsupported e then ⟨.error locationMsg, [], 1⟩
    else if attempt < MAX_RETRIES then
      match next with
      | none => ⟨.error failedMsg, [], 1⟩
      | some rest => ⟨rest.result, 1500 * 2 ^ (attempt - 1) :: rest.delays, rest.callsMade + 1⟩
    else if isRateLimited e then ⟨.error rateMsg, [], 1⟩
    else ⟨.error failedMsg, [], 1⟩

/-- The retry `for` loop from attempt number `attempt`; `calls n` is the
outcome of the `n`-th API call.  `fuel` only makes the recursion structural;
the loop itself stops via the `attempt < MAX_RETRIES` test in `retryStep`, and
with `fuel ≥ MAX_RETRIES - attempt` the fuel-exhaustion branch is
unreachable. -/
def retryLoop (calls : Nat → CallOutcome) : Nat → Nat → GenResult
  | 0, attempt => retryStep attempt (calls attempt) none
  | fuel + 1, attempt =>
      retryStep attempt (calls attempt) (some (retryLoop calls fuel (attempt + 1)))

/-- Function `generateQuestionsAndAnswers`: blank text and no images short-circuits to
`[]` with no API call; otherwise the 3-attempt retry loop runs. -/
def generateQuestionsAndAnswers (text : String) (images : List String)
    (calls : Nat → CallOutcome) : GenResult :=
  if jsTrim text = "" ∧ images = [] then ⟨.ok [], [], 0⟩
  else retryLoop calls MAX_RETRIES 1

/-- An attempt outcome that fails with an error the client classifies as
retriable. -/
def failsRetriably (o : CallOutcome) : Prop :=
  ∃ e, attemptOnce o = .error e ∧
    isPermissionDenied e = false ∧ isLocationUnsupported e = false

/-- Written from the claim's words, for comparison with the code's `isQaItem`:
the key is present with a non-empty string value. -/
def hasNonemptyStringField (j : Json) (key : String) : Bool :=
  match j with
  | .obj fields => fields.any (fun f =>
      f.1 = key && (match f.2 with | .str s => s ≠ "" | _ => false))
  | _ => false

/-! ## Batch orchestrator (`handleGenerateAllQa` in the App component) -/

/-- The observable effects of one `handleGenerateAllQa` run: the cache entries
written (in order), the progress reports issued (in order), the pacing delays
slept (ms), the ids of the chunks attempted (in order), and the error
surfaced, if any. -/
structure RunState where
  cacheWrites : List (Nat × List QAPair)
  progressReports : List (Nat × Nat)
  delays : List Nat
  attempted : List Nat
  appError : Option String
deriving Repr, DecidableEq

/-- The `for` loop of `handleGenerateAllQa`, processing chunks in list order
with `completed` successes so far and the fixed `total`.  `gen c` is the
outcome of `generateQaForChunk c`: the cache entry written on success, or the
thrown error's message.  On success the progress `(completed+1, total)` is
reported and, unless all chunks are done, a 5000 ms pacing delay is slept; on
the first failure the loop returns at once with the chunk's id in the surfaced
error and no further chunk attempted. -/
def runChunks (gen : Chunk → Except String (List QAPair)) (total : Nat) :
    List Chunk → Nat → RunState
  | [], _ => ⟨[], [], [], [], none⟩
  | c :: rest, completed =>
    match gen c with
    | .error msg =>
        ⟨[], [], [], [c.id],
         some ("Error on chunk #" ++ toString c.id ++ ": " ++ msg ++ ". Halting process.")⟩
    | .ok pairs =>
        let tail := runChunks gen total rest (completed + 1)
        ⟨(c.id, pairs) :: tail.cacheWrites,
         (completed + 1, total) :: tail.progressReports,
         (if completed + 1 < total then [5000] else []) ++ tail.delays,
         c.id :: tail.attempted,
         tail.appError⟩

/-- Function `handleGenerateAllQa`: an empty chunk list does nothing; otherwise the
initial progress `(0, total)` is reported and the loop runs. -/
def handleGenerateAllQa (gen : Chunk → Except String (List QAPair))
    (chunks : List Chunk) : RunState :=
  if chunks.length = 0 then ⟨[], [], [], [], none⟩
  else
    let r := runChunks gen chunks.length chunks 0
    ⟨r.cacheWrites, (0, chunks.length) :: r.progressReports, r.delays,
     r.attempted, r.appError⟩

/-! ## Outline auto-split (`autoSplitPdf` in the App component)

Resolved bookmark pages are 1-based (`pageIndex + 1` in the source, so always
≥ 1), which justifies `Nat` pages; the `bookmark[i+1].page - 1` subtraction
below is the JS subtraction on such pages. -/

/-- A resolved bookmark: title and 1-based page number. -/
structure Bookmark where
  title : String
  page : Nat
deriving Repr, DecidableEq

/-- An id-less page range with its section title: the element shape of both
`initialChunks` and `finalChunks` in `autoSplitPdf`. -/
structure PreChunk where
  startPage : Nat
  endPage : Nat
  contextTitle : String
deriving Repr, DecidableEq

/-- The JS stable sort `bookmarks.sort((a, b) => a.page - b.page)`. -/
def sortBookmarks (bs : List Bookmark) : List Bookmark :=
  bs.mergeSort (fun a b => a.page ≤ b.page)

/-- The dedup filter
`.filter((bookmark, index, self) => index === self.findIndex(b => b.page === bookmark.page))`,
which keeps only the first occurrence of each page; modeled with an
accumulator of the pages already seen. -/
def dedupeByPageAux (seen : List Nat) : List Bookmark → List Bookmark
  | [] => []
  | b :: rest =>
      if b.page ∈ seen then dedupeByPageAux seen rest
      else b :: dedupeByPageAux (b.page :: seen) rest

/-- Keep the first occurrence of each page. -/
def dedupeByPage (bs : List Bookmark) : List Bookmark :=
  dedupeByPageAux [] bs

/-- The section-boundary pass (`uniqueBookmarks.forEach` with lookahead): the
section of bookmark `i` spans from its page to the next bookmark's page minus
one, the last section spans to `numPages`, and a section with
`startPage > endPage` is dropped. -/
def sections (numPages : Nat) : List Bookmark → List PreChunk
  | [] => []
  | [b] =>
      if b.page ≤ numPages then [⟨b.page, numPages, b.title⟩] else []
  | b :: b2 :: rest =>
      (if b.page ≤ b2.page - 1 then [⟨b.page, b2.page - 1, b.title⟩] else []) ++
      sections numPages (b2 :: rest)

def MAX_CHUNK_PAGES : Nat := 4

/-- The sub-splitting `while` loop of `autoSplitPdf`: greedy left-to-right
ranges of at most `MAX_CHUNK_PAGES` pages, ending at
`min (currentStart + MAX_CHUNK_PAGES - 1) endPage`.  `fuel` only makes the
recursion structural; with `fuel ≥ endPage + 1 - currentStart` the exhaustion
branch is unreachable. -/
def splitSectionAux (endPage : Nat) (title : String) : Nat → Nat → List PreChunk
  | 0, _ => []
  | fuel + 1, currentStart =>
    if currentStart ≤ endPage then
      ⟨currentStart, min (currentStart + MAX_CHUNK_PAGES - 1) endPage, title⟩ ::
        splitSectionAux endPage title fuel
          (min (currentStart + MAX_CHUNK_PAGES - 1) endPage + 1)
    else []

/-- Split one section into sub-ranges of span at most `MAX_CHUNK_PAGES`. -/
def splitSection (s : PreChunk) : List PreChunk :=
  splitSectionAux s.endPage s.contextTitle (s.endPage + 1 - s.startPage) s.startPage

/-- The id pass `finalChunks.map((chunk, index) => (..., id: index + 1))`, with
the 1-based index carried as an explicit counter. -/
def assignIds (startId : Nat) : List PreChunk → List Chunk
  | [] => []
  | c :: cs =>
      ⟨startId, c.startPage, c.endPage, some c.contextTitle⟩ :: assignIds (startId + 1) cs

/-- The chunk list `autoSplitPdf` computes from the resolved bookmarks: sort,
dedupe by page, derive section boundaries, sub-split each section, assign ids
1..count in output order. -/
def autoSplitChunks (bookmarks : List Bookmark) (numPages : Nat) : List Chunk :=
  assignIds 1 (((sections numPages (dedupeByPage (sortBookmarks bookmarks))).flatMap
    splitSection))

/-- The outcome of one `autoSplitPdf` invocation.  `hasOutline` is the App
state set when the file was parsed; `resolved` is the bookmark list the
outline walk produced (empty when every destination failed to resolve). -/
inductive SplitOutcome where
  | unavailable
  | failed (appError : String)
  | ok (chunks : List Chunk)
deriving Repr, DecidableEq

/-- Function `autoSplitPdf`, its control flow: the `if (!pdfDoc || !hasOutline) return`
guard (auto-split simply unavailable), the
`bookmarks.length === 0` hard failure (thrown, caught, surfaced as an
`Auto-split error:` message), or the successful replacement of the chunk
list. -/
def autoSplitPdf (hasOutline : Bool) (resolved : List Bookmark) (numPages : Nat) :
    SplitOutcome :=
  if !hasOutline then .unavailable
  else if resolved.length = 0 then
    .failed "Auto-split error: Failed to extract structure from outline. Please use manual splitting."
  else .ok (autoSplitChunks resolved numPages)

/-- The chunk list after `autoSplitPdf` runs, given the previous list: the
early return leaves it unchanged, the catch clears it, success replaces it. -/
def chunksAfterSplit (o : SplitOutcome) (prev : List Chunk) : List Chunk :=
  match o with
  | .unavailable => prev
  | .failed _ => []
  | .ok cs => cs

/-- The page range a chunk covers. -/
def Chunk.range (c : Chunk) : Nat × Nat := (c.startPage, c.endPage)

/-- The page range a pre-chunk covers. -/
def PreChunk.range (c : PreChunk) : Nat × Nat := (c.startPage, c.endPage)

/-- Predicate `tiles lo hi rs`: the ranges `rs` cover pages `lo..hi` exactly, in order:
each range starts where the previous ended plus one (the first at `lo`), is
non-empty, stays within `hi`, and the last ends at `hi`.  This packages
contiguity, non-overlap and coverage. -/
def tiles : Nat → Nat → List (Nat × Nat) → Prop
  | lo, hi, [] => lo = hi + 1
  | lo, hi, r :: rs => r.1 = lo ∧ r.1 ≤ r.2 ∧ r.2 ≤ hi ∧ tiles (r.2 + 1) hi rs

/-! ## Dataset export (`handleSaveAllQa` in the App component) -/

/-- A hexadecimal digit. -/
def hexDigit (n : Nat) : Char :=
  if n = 0 then '0' else if n = 1 then '1' else if n = 2 then '2'
  else if n = 3 then '3' else if n = 4 then '4' else if n = 5 then '5'
  else if n = 6 then '6' else if n = 7 then '7' else if n = 8 then '8'
  else if n = 9 then '9' else if n = 10 then 'a' else if n = 11 then 'b'
  else if n = 12 then 'c' else if n = 13 then 'd' else if n = 14 then 'e'
  else 'f'

/-- JSON escaping of one character, as `JSON.stringify` performs on string
values: quote, backslash and the named control escapes, `\u00XX` for the
remaining control characters, everything else unchanged. -/
def jsonEscapeChar (c : Char) : List Char :=
  if c = '"' then ['\\', '"']
  else if c = '\\' then ['\\', '\\']
  else if c = '\x08' then ['\\', 'b']
  else if c = '\x09' then ['\\', 't']
  else if c = '\x0a' then ['\\', 'n']
  else if c = '\x0c' then ['\\', 'f']
  else if c = '\x0d' then ['\\', 'r']
  else if c.toNat < 0x20 then
    ['\\', 'u', '0', '0', hexDigit (c.toNat / 16), hexDigit (c.toNat % 16)]
  else [c]

/-- The form `JSON.stringify` gives a string value: a quoted, escaped string. -/
def jsonQuote (s : String) : String :=
  String.mk ('"' :: s.data.flatMap jsonEscapeChar ++ ['"'])

/-- The call `JSON.stringify(lineObject)` for the export line object
`{messages:[{role:'user',content:...},{role:'model',content:...}]}`. -/
def stringifyLine (p : QAPair) : String :=
  "\x7b\"messages\":[\x7b\"role\":\"user\",\"content\":" ++ jsonQuote p.input_text ++
  "\x7d,\x7b\"role\":\"model\",\"content\":" ++ jsonQuote p.output_text ++ "\x7d]\x7d"

/-- The list `Object.values(qaCache)`: a JS object's integer-like keys enumerate in
ascending numeric order, so the cached pair lists come out sorted by chunk id
(the cache is an association list with distinct keys, modeled as written). -/
def qaCacheValues (cache : List (Nat × List QAPair)) : List (List QAPair) :=
  (List.insertionSort (fun a b => a.1 ≤ b.1) cache).map (fun e => e.2)

/-- The list `Object.values(qaCache).flat()`: all cached pairs, ascending chunk id,
generation order within a chunk. -/
def exportPairs (cache : List (Nat × List QAPair)) : List QAPair :=
  (qaCacheValues cache).flatten

/-- Function `handleSaveAllQa`: `none` is the `No Q&A pairs have been generated to
save.` error path; otherwise the download file name and its newline-joined
content. -/
def handleSaveAllQa (cache : List (Nat × List QAPair)) : Option (String × String) :=
  if (exportPairs cache).length = 0 then none
  else some ("qa_dataset.json", String.intercalate "\n" ((exportPairs cache).map stringifyLine))

/-- Written from the claim's words, for comparison with `exportPairs`: pairs
concatenated in chunk-list order (the order of the `chunks` state list). -/
def exportPairsListOrder (chunks : List Chunk) (cache : List (Nat × List QAPair)) :
    List QAPair :=
  chunks.flatMap (fun c => ((cache.find? (fun e => e.1 = c.id)).map (fun e => e.2)).getD [])

/-! ## Theorems -/

/-- C9: the manual chunk-add path rejects, with an error message and without
adding any chunk, every request whose start or end is not a positive integer
(`parseInt` NaN or ≤ 0), whose start exceeds its end, whose start or end
exceeds the page count, or whose span exceeds 4 pages; consequently every
manually added chunk satisfies 1 ≤ start ≤ end ≤ numPages and span ≤ 4. -/
theorem manual_add_validation (s? e? : Option Int) (N : Nat) :
    ((s? = none ∨ e? = none ∨ ∃ s e, s? = some s ∧ e? = some e ∧
        (s ≤ 0 ∨ e ≤ 0 ∨ s > e ∨ s > (N : Int) ∨ e > (N : Int) ∨ e - s + 1 > 4)) →
      ∃ msg, handleAddChunk s? e? N = .error msg) ∧
    (∀ s e, handleAddChunk s? e? N = .ok (s, e) →
      1 ≤ s ∧ s ≤ e ∧ e ≤ (N : Int) ∧ e - s + 1 ≤ 4) := by
  constructor
  · rintro (h | h | ⟨s, e, hs, he, hbad⟩)
    · subst h; exact ⟨_, rfl⟩
    · rcases s? with _ | s
      · exact ⟨_, rfl⟩
      · subst h; exact ⟨_, rfl⟩
    · subst hs; subst he
      simp only [handleAddChunk]
      split
      · exact ⟨_, rfl⟩
      · split
        · exact ⟨_, rfl⟩
        · split
          · exact ⟨_, rfl⟩
          · split
            · exact ⟨_, rfl⟩
            · omega
  · intro s e h
    rcases s? with _ | s₀ <;> rcases e? with _ | e₀ <;>
      simp only [handleAddChunk] at h <;>
      [exact Except.noConfusion h; exact Except.noConfusion h;
       exact Except.noConfusion h; skip]
    split_ifs at h with h1 h2 h3 h4 <;>
      first
        | exact Except.noConfusion h
        | (simp only [Except.ok.injEq, Prod.mk.injEq] at h
           obtain ⟨rfl, rfl⟩ := h
           omega)

/-- Witness for C9 at concrete inputs: a 6-page request on a 10-page document is
rejected, and a validated request satisfies the bounds. -/
theorem manual_add_validation_witness :
    ∃ msg, handleAddChunk (some 1) (some 6) 10 = .error msg :=
  (manual_add_validation (some 1) (some 6) 10).1
    (Or.inr (Or.inr ⟨1, 6, rfl, rfl, by omega⟩))

/-- C10: every manual add appends the new chunk (whose id is the current
counter) and re-sorts the entire list by `startPage` ascending: the result is a
permutation of the old list plus the new chunk, is sorted by `startPage`,
contains the new chunk, and the id counter increments — so ids reflect creation
order while list order reflects page order. -/
theorem manual_add_ordering (prev : List Chunk) (nid s e : Nat) :
    (addChunk prev nid s e).1.Perm (prev ++ [⟨nid, s, e, none⟩]) ∧
    (addChunk prev nid s e).1.Pairwise (fun a b => a.startPage ≤ b.startPage) ∧
    (addChunk prev nid s e).2 = nid + 1 ∧
    (⟨nid, s, e, none⟩ : Chunk) ∈ (addChunk prev nid s e).1 := by
  refine ⟨List.mergeSort_perm _ _, ?_, rfl, ?_⟩
  · have h := @List.sorted_mergeSort Chunk
      (fun a b : Chunk => decide (a.startPage ≤ b.startPage))
      (fun a b c hab hbc => by
        simp only [decide_eq_true_eq] at *; omega)
      (fun a b => by
        simp only [Bool.or_eq_true, decide_eq_true_eq]; omega)
      (prev ++ [⟨nid, s, e, none⟩])
    simpa [addChunk] using h
  · have hperm := List.mergeSort_perm (prev ++ [⟨nid, s, e, none⟩])
      (fun a b : Chunk => decide (a.startPage ≤ b.startPage))
    have : (⟨nid, s, e, none⟩ : Chunk) ∈ prev ++ [⟨nid, s, e, none⟩] := by simp
    simpa [addChunk] using hperm.mem_iff.mpr this

/-- A context title that is present but empty (`some ""`, possible for a
bookmark with an empty title) is falsy in JS, so the code emits the
document-only clause where the claim's reading ("when a context title is
present") demands the section clause: the claim as stated fails at this
input. -/
theorem normalize_clause_counterexample :
    (normalizePairs [⟨"what is x", "y"⟩] (some "") "doc.pdf").map QAPair.input_text =
      ["In the document \"doc.pdf\", what is x?"] ∧
    "In the document \"doc.pdf\", what is x?" ≠
      "In the section \"\" of the document \"doc.pdf\", what is x?" := by
  decide

/-- Normalization is drop-the-empty-pairs then map, in order. -/
theorem normalizePairs_eq (raws : List RawPair) (ct : Option String) (dn : String) :
    normalizePairs raws ct dn =
      (raws.filter (fun p => !decide (p.question = "" ∨ p.answer = ""))).map
        (normalizedOf ct dn) := by
  induction raws with
  | nil => rfl
  | cons p rest ih =>
    by_cases hq : p.question = "" <;> by_cases ha : p.answer = "" <;>
      simp_all [normalizePairs, normalizedOf, List.filterMap_cons, List.filter_cons]

/-- C3 (amended: the section clause is chosen for a *non-empty* context title):
normalization drops exactly the pairs with an empty question or answer, keeps
order, and maps each survivor to the context clause plus the trimmed question
(with `?` appended when missing, only the first character lowercased) and the
trimmed answer; including the spec's concrete example. -/
theorem normalize_transform (raws : List RawPair) (dn : String) :
    (normalizePairs raws none dn =
      (raws.filter (fun p => !decide (p.question = "" ∨ p.answer = ""))).map (fun p =>
        { input_text := "In the document \"" ++ dn ++ "\", " ++
            lowerFirst (if endsWithChar (jsTrim p.question) '?' then jsTrim p.question
                        else jsTrim p.question ++ "?"),
          output_text := jsTrim p.answer })) ∧
    (∀ t : String, t ≠ "" →
      normalizePairs raws (some t) dn =
        (raws.filter (fun p => !decide (p.question = "" ∨ p.answer = ""))).map (fun p =>
          { input_text :=
              "In the section \"" ++ t ++ "\" of the document \"" ++ dn ++ "\", " ++
              lowerFirst (if endsWithChar (jsTrim p.question) '?' then jsTrim p.question
                          else jsTrim p.question ++ "?"),
            output_text := jsTrim p.answer })) ∧
    normalizePairs [⟨"what is x", " y "⟩] (some "Intro") "doc.pdf" =
      [⟨"In the section \"Intro\" of the document \"doc.pdf\", what is x?", "y"⟩] := by
  refine ⟨?_, ?_, by decide⟩
  · rw [normalizePairs_eq]
    simp [normalizedOf, contextClause]
  · intro t ht
    rw [normalizePairs_eq]
    simp [normalizedOf, contextClause, ht]

/-- Witness for C3: the non-empty-title conjunct applied at a concrete input. -/
theorem normalize_transform_witness :
    normalizePairs [RawPair.mk "what is x" " y "] (some "Intro") "doc.pdf" =
      ([RawPair.mk "what is x" " y "].filter
          (fun p => !decide (p.question = "" ∨ p.answer = ""))).map (fun p =>
        { input_text :=
            "In the section \"Intro\" of the document \"doc.pdf\", " ++
            lowerFirst (if endsWithChar (jsTrim p.question) '?' then jsTrim p.question
                        else jsTrim p.question ++ "?"),
          output_text := jsTrim p.answer }) :=
  (normalize_transform [RawPair.mk "what is x" " y "] "doc.pdf").2.1 "Intro" (by decide)

/-- Appending on the right preserves non-emptiness of the character data. -/
theorem str_append_ne_nil (s t : String) (h : s.data ≠ []) : (s ++ t).data ≠ [] := by
  rw [String.data_append]
  intro hc
  exact h (List.append_eq_nil.mp hc).1

/-- Both forms of the context clause are non-empty. -/
theorem contextClause_data_ne (ct : Option String) (dn : String) :
    (contextClause ct dn).data ≠ [] := by
  unfold contextClause
  split
  · apply str_append_ne_nil
    apply str_append_ne_nil
    apply str_append_ne_nil
    apply str_append_ne_nil
    decide
  · apply str_append_ne_nil
    apply str_append_ne_nil
    decide

/-- Lower-casing only the first character preserves a final `?`. -/
theorem lowerFirst_getLast (s : String) (h : s.data.getLast? = some '?') :
    (lowerFirst s).data.getLast? = some '?' := by
  rcases hcs : s.data with _ | ⟨c, cs⟩
  · rw [hcs] at h
    exact absurd h (by simp)
  · rw [hcs] at h
    simp only [lowerFirst, hcs]
    cases cs with
    | nil =>
      simp only [List.getLast?_singleton, Option.some.injEq] at h
      subst h
      decide
    | cons c2 cs2 =>
      rw [List.getLast?_cons_cons] at h
      show (Char.toLower c :: c2 :: cs2).getLast? = some '?'
      rw [List.getLast?_cons_cons]
      exact h

/-- The question text (trimmed, `?`-appended, first character lowercased)
always ends in `?`. -/
theorem question_mark_last (q0 : String) :
    (lowerFirst (if endsWithChar q0 '?' then q0 else q0 ++ "?")).data.getLast? =
      some '?' := by
  cases h : endsWithChar q0 '?' with
  | true =>
    simp only [h, if_true]
    exact lowerFirst_getLast q0 (by simpa [endsWithChar] using h)
  | false =>
    simp only [h, Bool.false_eq_true, if_false]
    apply lowerFirst_getLast
    rw [String.data_append]
    rw [List.getLast?_append]
    rfl

/-- C6 (amended: `output_text` is the trimmed raw answer, which is empty when
the raw answer is whitespace-only): every QAPair produced by normalization has
a non-empty `input_text` that ends with a question mark and begins with the
context clause, and an `output_text` equal to the trim of a raw answer that was
not the empty string. -/
theorem qapair_invariant (raws : List RawPair) (ct : Option String) (dn : String)
    (p : QAPair) (hp : p ∈ normalizePairs raws ct dn) :
    p.input_text ≠ "" ∧
    p.input_text.data.getLast? = some '?' ∧
    (contextClause ct dn).data <+: p.input_text.data ∧
    ∃ raw ∈ raws, raw.answer ≠ "" ∧ p.output_text = jsTrim raw.answer := by
  rw [normalizePairs_eq] at hp
  rcases List.mem_map.mp hp with ⟨raw, hraw, rfl⟩
  have hrawmem : raw ∈ raws := List.mem_of_mem_filter hraw
  have hcond := List.of_mem_filter hraw
  simp only [Bool.not_eq_eq_eq_not, Bool.not_true, decide_eq_false_iff_not] at hcond
  push_neg at hcond
  refine ⟨?_, ?_, ?_, raw, hrawmem, hcond.2, rfl⟩
  · intro hempty
    have : (normalizedOf ct dn raw).input_text.data = [] := by
      rw [hempty]
    rw [normalizedOf, String.data_append] at this
    exact contextClause_data_ne ct dn (List.append_eq_nil.mp this).1
  · show (normalizedOf ct dn raw).input_text.data.getLast? = some '?'
    rw [normalizedOf, String.data_append, List.getLast?_append,
      question_mark_last (jsTrim raw.question)]
    rfl
  · exact ⟨_, (String.data_append _ _).symm⟩

/-- Witness for C6 at the spec's concrete example. -/
theorem qapair_invariant_witness :
    (QAPair.mk "In the section \"Intro\" of the document \"doc.pdf\", what is x?" "y").input_text ≠ "" ∧
    (QAPair.mk "In the section \"Intro\" of the document \"doc.pdf\", what is x?" "y").input_text.data.getLast? = some '?' ∧
    (contextClause (some "Intro") "doc.pdf").data <+:
      (QAPair.mk "In the section \"Intro\" of the document \"doc.pdf\", what is x?" "y").input_text.data ∧
    ∃ raw ∈ [RawPair.mk "what is x" " y "], raw.answer ≠ "" ∧
      (QAPair.mk "In the section \"Intro\" of the document \"doc.pdf\", what is x?" "y").output_text = jsTrim raw.answer :=
  qapair_invariant [RawPair.mk "what is x" " y "] (some "Intro") "doc.pdf"
    (QAPair.mk "In the section \"Intro\" of the document \"doc.pdf\", what is x?" "y")
    (by decide)

/-- The claim's "output_text is non-empty" fails: a whitespace-only answer is
truthy in JS (so the pair is kept) but trims to the empty string. -/
theorem qapair_empty_output_counterexample :
    (normalizePairs [⟨"q", " "⟩] none "d").map QAPair.output_text = [""] := by
  decide

/-- A successful attempt: the outcome was a parsed JSON array whose items all
pass the key-presence check. -/
theorem attemptOnce_ok_shape (o : CallOutcome) (items : List Json)
    (h : attemptOnce o = .ok items) : ∀ item ∈ items, isQaItem item = true := by
  cases o with
  | threw e => exact Except.noConfusion h
  | badJson m => exact Except.noConfusion h
  | parsed j =>
    cases j with
    | arr its =>
      simp only [attemptOnce] at h
      split_ifs at h with hc
      · injection h with h'
        subst h'
        intro item hm
        have hc' : its.length = 0 ∨ its.all isQaItem = true := by simpa using hc
        rcases hc' with h0 | hall
        · rw [List.length_eq_zero.mp h0] at hm
          cases hm
        · exact List.all_eq_true.mp hall item hm
    | null => exact Except.noConfusion h
    | bool b => exact Except.noConfusion h
    | num n => exact Except.noConfusion h
    | str s => exact Except.noConfusion h
    | obj fields => exact Except.noConfusion h

/-- Each iteration makes exactly one call on top of the later ones, and the
`attempt < MAX_RETRIES` test stops the loop: from attempt number `attempt` at
most `MAX_RETRIES - attempt + 1` calls are made. -/
theorem retryLoop_calls_le (calls : Nat → CallOutcome) :
    ∀ fuel attempt, (retryLoop calls fuel attempt).callsMade ≤
      MAX_RETRIES - attempt + 1 := by
  intro fuel
  induction fuel with
  | zero =>
    intro attempt
    simp only [retryLoop, retryStep]
    split
    · simp
    · split_ifs <;> simp <;> omega
  | succ f ih =>
    intro attempt
    have hih := ih (attempt + 1)
    simp only [retryLoop, retryStep]
    split
    · simp
    · split_ifs <;> simp <;> omega

/-- Unfolding one retried attempt. -/
theorem retryLoop_retry_step (calls : Nat → CallOutcome) (fuel attempt : Nat)
    (e : ApiError) (h : attemptOnce (calls attempt) = .error e)
    (hp : isPermissionDenied e = false) (hl : isLocationUnsupported e = false)
    (hlt : attempt < MAX_RETRIES) (hfuel : 1 ≤ fuel) :
    retryLoop calls fuel attempt =
      ⟨(retryLoop calls (fuel - 1) (attempt + 1)).result,
       1500 * 2 ^ (attempt - 1) :: (retryLoop calls (fuel - 1) (attempt + 1)).delays,
       (retryLoop calls (fuel - 1) (attempt + 1)).callsMade + 1⟩ := by
  obtain ⟨f', rfl⟩ : ∃ f', fuel = f' + 1 := ⟨fuel - 1, by omega⟩
  simp [retryLoop, retryStep, h, hp, hl, hlt]

/-- Unfolding a successful attempt. -/
theorem retryLoop_ok (calls : Nat → CallOutcome) (fuel attempt : Nat)
    (items : List Json) (h : attemptOnce (calls attempt) = .ok items) :
    retryLoop calls fuel attempt = ⟨.ok items, [], 1⟩ := by
  cases fuel <;> simp [retryLoop, retryStep, h]

/-- Unfolding the last attempt's failure: the final error classification. -/
theorem retryLoop_final (calls : Nat → CallOutcome) (fuel : Nat) (e : ApiError)
    (h : attemptOnce (calls MAX_RETRIES) = .error e)
    (hp : isPermissionDenied e = false) (hl : isLocationUnsupported e = false) :
    retryLoop calls fuel MAX_RETRIES =
      ⟨.error (if isRateLimited e then rateMsg else failedMsg), [], 1⟩ := by
  cases fuel <;> simp [retryLoop, retryStep, h, hp, hl] <;> split <;> rfl

/-- Unfolding a non-retriable permission failure. -/
theorem retryLoop_denied (calls : Nat → CallOutcome) (fuel attempt : Nat)
    (e : ApiError) (h : attemptOnce (calls attempt) = .error e)
    (hp : isPermissionDenied e = true) :
    retryLoop calls fuel attempt = ⟨.error deniedMsg, [], 1⟩ := by
  cases fuel <;> simp [retryLoop, retryStep, h, hp]

/-- Unfolding a non-retriable location failure (the permission test, checked
first, must have failed). -/
theorem retryLoop_location (calls : Nat → CallOutcome) (fuel attempt : Nat)
    (e : ApiError) (h : attemptOnce (calls attempt) = .error e)
    (hp : isPermissionDenied e = false) (hl : isLocationUnsupported e = true) :
    retryLoop calls fuel attempt = ⟨.error locationMsg, [], 1⟩ := by
  cases fuel <;> simp [retryLoop, retryStep, h, hp, hl]

/-- C2: with non-blank input, `generateQuestionsAndAnswers` makes at most 3
calls; a permission-denied error on the first attempt aborts at once with the
denied message and no delay; a 403 user-location error (permission test
failing) aborts at once with the location message; two retriable failures
followed by a success return the parsed list after backoff delays of exactly
1.5s then 3s; three retriable failures end with the rate-limited message when
the last error is a rate-limit signal and the generic after-3-attempts message
otherwise, after the same delays; and the four messages are pairwise
distinct.  The `Except` result type is the no-partial-result guarantee. -/
theorem generate_retry_policy (text : String) (images : List String)
    (calls : Nat → CallOutcome) (hinput : ¬(jsTrim text = "" ∧ images = [])) :
    ((generateQuestionsAndAnswers text images calls).callsMade ≤ 3) ∧
    (∀ e, calls 1 = .threw e → isPermissionDenied e = true →
      generateQuestionsAndAnswers text images calls = ⟨.error deniedMsg, [], 1⟩) ∧
    (∀ e, calls 1 = .threw e → isPermissionDenied e = false →
      isLocationUnsupported e = true →
      generateQuestionsAndAnswers text images calls = ⟨.error locationMsg, [], 1⟩) ∧
    (∀ items, failsRetriably (calls 1) → failsRetriably (calls 2) →
      attemptOnce (calls 3) = .ok items →
      generateQuestionsAndAnswers text images calls = ⟨.ok items, [1500, 3000], 3⟩) ∧
    (∀ e3, failsRetriably (calls 1) → failsRetriably (calls 2) →
      attemptOnce (calls 3) = .error e3 →
      isPermissionDenied e3 = false → isLocationUnsupported e3 = false →
      generateQuestionsAndAnswers text images calls =
        ⟨.error (if isRateLimited e3 then rateMsg else failedMsg), [1500, 3000], 3⟩) ∧
    (deniedMsg ≠ locationMsg ∧ deniedMsg ≠ rateMsg ∧ deniedMsg ≠ failedMsg ∧
     locationMsg ≠ rateMsg ∧ locationMsg ≠ failedMsg ∧ rateMsg ≠ failedMsg) := by
  have hgen : generateQuestionsAndAnswers text images calls =
      retryLoop calls MAX_RETRIES 1 := by
    rw [generateQuestionsAndAnswers, if_neg hinput]
  refine ⟨?_, ?_, ?_, ?_, ?_, by decide, by decide, by decide, by decide, by decide, by decide⟩
  · rw [hgen]
    have := retryLoop_calls_le calls MAX_RETRIES 1
    simpa [MAX_RETRIES] using this
  · intro e h1 hp
    rw [hgen, retryLoop_denied calls MAX_RETRIES 1 e (by rw [h1]; rfl) hp]
  · intro e h1 hp hl
    rw [hgen, retryLoop_location calls MAX_RETRIES 1 e (by rw [h1]; rfl) hp hl]
  · rintro items ⟨e1, he1, hp1, hl1⟩ ⟨e2, he2, hp2, hl2⟩ h3
    have s1 := retryLoop_retry_step calls MAX_RETRIES 1 e1 he1 hp1 hl1 (by decide) (by decide)
    have s2 := retryLoop_retry_step calls (MAX_RETRIES - 1) 2 e2 he2 hp2 hl2 (by decide) (by decide)
    have s3 := retryLoop_ok calls (MAX_RETRIES - 1 - 1) 3 items h3
    norm_num [MAX_RETRIES] at s1 s2 s3
    rw [hgen]
    show retryLoop calls 3 1 = _
    rw [s1, s2, s3]
  · rintro e3 ⟨e1, he1, hp1, hl1⟩ ⟨e2, he2, hp2, hl2⟩ h3 hp3 hl3
    have s1 := retryLoop_retry_step calls MAX_RETRIES 1 e1 he1 hp1 hl1 (by decide) (by decide)
    have s2 := retryLoop_retry_step calls (MAX_RETRIES - 1) 2 e2 he2 hp2 hl2 (by decide) (by decide)
    have s3 := retryLoop_final calls (MAX_RETRIES - 1 - 1) e3 h3 hp3 hl3
    norm_num [MAX_RETRIES] at s1 s2 s3
    rw [hgen]
    show retryLoop calls 3 1 = _
    rw [s1, s2, s3]

/-- Witness for C2: a permanent network-style error on every call exhausts the
3 attempts with both backoff delays and the generic final message. -/
theorem generate_retry_policy_witness :
    generateQuestionsAndAnswers "some text" []
        (fun _ => .threw ⟨some "network error", none, none, none⟩) =
      ⟨.error (if isRateLimited ⟨some "network error", none, none, none⟩
               then rateMsg else failedMsg), [1500, 3000], 3⟩ :=
  (generate_retry_policy "some text" []
      (fun _ => .threw ⟨some "network error", none, none, none⟩)
      (by decide)).2.2.2.2.1
    ⟨some "network error", none, none, none⟩
    ⟨⟨some "network error", none, none, none⟩, rfl, by decide, by decide⟩
    ⟨⟨some "network error", none, none, none⟩, rfl, by decide, by decide⟩
    rfl (by decide) (by decide)

/-- Any list the retry loop returns came from a shape-validated attempt. -/
theorem retryLoop_ok_shape (calls : Nat → CallOutcome) :
    ∀ fuel attempt items, (retryLoop calls fuel attempt).result = .ok items →
      ∀ item ∈ items, isQaItem item = true := by
  intro fuel
  induction fuel with
  | zero =>
    intro attempt items h
    simp only [retryLoop, retryStep] at h
    revert h
    split
    · rename_i items0 heq
      intro h
      simp only [Except.ok.injEq] at h
      subst h
      exact attemptOnce_ok_shape (calls attempt) items0 heq
    · intro h
      split_ifs at h <;> exact Except.noConfusion h
  | succ f ih =>
    intro attempt items h
    simp only [retryLoop, retryStep] at h
    revert h
    split
    · rename_i items0 heq
      intro h
      simp only [Except.ok.injEq] at h
      subst h
      exact attemptOnce_ok_shape (calls attempt) items0 heq
    · intro h
      split_ifs at h <;>
        first
          | exact Except.noConfusion h
          | exact ih (attempt + 1) items h

/-- C7 (amended: the client-side check only requires each element to be a
non-null object carrying `question` and `answer` keys — it does not check
that the values are non-empty strings): every element of a list returned by
`generateQuestionsAndAnswers` passes the key-presence check. -/
theorem schema_validation_keys (text : String) (images : List String)
    (calls : Nat → CallOutcome) (items : List Json)
    (hok : (generateQuestionsAndAnswers text images calls).result = .ok items) :
    ∀ item ∈ items, isQaItem item = true := by
  rw [generateQuestionsAndAnswers] at hok
  split_ifs at hok with hin
  · simp only [Except.ok.injEq] at hok
    subst hok
    intro item hmem
    cases hmem
  · exact retryLoop_ok_shape calls MAX_RETRIES 1 items hok

/-- Witness for C7 at a concrete run returning one well-formed item. -/
theorem schema_validation_keys_witness :
    isQaItem (Json.obj [("question", Json.str "q"), ("answer", Json.str "a")]) = true :=
  schema_validation_keys "x" []
    (fun _ => .parsed (.arr [.obj [("question", .str "q"), ("answer", .str "a")]]))
    [Json.obj [("question", Json.str "q"), ("answer", Json.str "a")]] rfl
    (Json.obj [("question", Json.str "q"), ("answer", Json.str "a")])
    (List.mem_singleton.mpr rfl)

/-- The claim's "non-empty question and answer string fields" fails on the
code: the validation tests only key presence (`'question' in item`), so a
response `[{"question":"","answer":""}]` is accepted and returned as-is even
though its `question` value is the empty string. -/
theorem schema_validation_counterexample :
    (generateQuestionsAndAnswers "x" []
        (fun _ => .parsed (.arr [.obj [("question", .str ""), ("answer", .str "")]]))).result =
      .ok [.obj [("question", .str ""), ("answer", .str "")]] ∧
    hasNonemptyStringField (.obj [("question", .str ""), ("answer", .str "")]) "question"
      = false :=
  ⟨rfl, rfl⟩

/-- Loop behaviour when a prefix succeeds and the next chunk fails. -/
theorem runChunks_fail_spec (gen : Chunk → Except String (List QAPair))
    (pairsOf : Chunk → List QAPair) (bad : Chunk) (msg : String)
    (hbad : gen bad = .error msg) :
    ∀ (good : List Chunk) (rest : List Chunk) (completed total : Nat),
      (∀ c ∈ good, gen c = .ok (pairsOf c)) →
      completed + good.length < total →
      runChunks gen total (good ++ bad :: rest) completed =
        ⟨good.map (fun c => (c.id, pairsOf c)),
         (List.range good.length).map (fun i => (completed + i + 1, total)),
         List.replicate good.length 5000,
         good.map (fun c => c.id) ++ [bad.id],
         some ("Error on chunk #" ++ toString bad.id ++ ": " ++ msg ++
           ". Halting process.")⟩ := by
  intro good
  induction good with
  | nil =>
    intro rest completed total _ _
    simp [runChunks, hbad]
  | cons g good' ih =>
    intro rest completed total hgood hlt
    have hg : gen g = .ok (pairsOf g) := hgood g (by simp)
    have hih := ih rest (completed + 1) total
      (fun c hc => hgood c (by simp [hc]))
      (by simp at hlt ⊢; omega)
    have hdelay : completed + 1 < total := by simp at hlt; omega
    simp only [List.cons_append, runChunks, hg, List.append_eq, hih, List.map_cons,
      List.length_cons, RunState.mk.injEq]
    refine ⟨by trivial, ?_, ?_, by trivial, by trivial⟩
    · rw [List.range_succ_eq_map, List.map_cons, List.map_map]
      simp only [Nat.add_zero]
      refine congrArg₂ List.cons rfl (List.map_congr_left fun a ha => ?_)
      simp only [Function.comp_apply, Nat.succ_eq_add_one, Prod.mk.injEq]
      exact ⟨by omega, trivial⟩
    · rw [if_pos hdelay, List.replicate_succ]
      rfl

/-- Loop behaviour when every chunk succeeds: all entries cached, progress
after each chunk, a pacing delay after every chunk but the last, no error. -/
theorem runChunks_ok_spec (gen : Chunk → Except String (List QAPair))
    (pairsOf : Chunk → List QAPair) :
    ∀ (chunks : List Chunk) (completed total : Nat),
      (∀ c ∈ chunks, gen c = .ok (pairsOf c)) →
      completed + chunks.length = total →
      runChunks gen total chunks completed =
        ⟨chunks.map (fun c => (c.id, pairsOf c)),
         (List.range chunks.length).map (fun i => (completed + i + 1, total)),
         List.replicate (chunks.length - 1) 5000,
         chunks.map (fun c => c.id),
         none⟩ := by
  intro chunks
  induction chunks with
  | nil =>
    intro completed total _ _
    simp [runChunks]
  | cons c rest ih =>
    intro completed total hgood htot
    have hc : gen c = .ok (pairsOf c) := hgood c (by simp)
    have hih := ih (completed + 1) total (fun x hx => hgood x (by simp [hx]))
      (by simp at htot ⊢; omega)
    simp only [runChunks, hc, hih, List.map_cons, List.length_cons,
      RunState.mk.injEq]
    refine ⟨by trivial, ?_, ?_, by trivial, by trivial⟩
    · rw [List.range_succ_eq_map, List.map_cons, List.map_map]
      simp only [Nat.add_zero]
      refine congrArg₂ List.cons rfl (List.map_congr_left fun a ha => ?_)
      simp only [Function.comp_apply, Nat.succ_eq_add_one, Prod.mk.injEq]
      exact ⟨by omega, trivial⟩
    · rcases rest with _ | ⟨r, rest'⟩
      · have hnd : ¬ (completed + 1 < total) := by simp at htot; omega
        simp [hnd]
      · have hd : completed + 1 < total := by simp at htot ⊢; omega
        simp [hd, List.replicate_succ]

/-- C5: chunks are processed strictly in list order; on the first failing
chunk the run stops at once — no later chunk is attempted — surfacing an error
naming that chunk's id, while the cache writes of the earlier chunks in the
run are kept, progress `(completed, total)` having been reported after each
success (after the initial `(0, total)`), with a 5-second pacing delay after
each success that is not the final chunk; and an all-success run caches every
chunk, attempts them all in order, reports progress 1..n, sleeps n-1 pacing
delays and surfaces no error. -/
theorem batch_orchestration (gen : Chunk → Except String (List QAPair))
    (pairsOf : Chunk → List QAPair) (good : List Chunk) (bad : Chunk)
    (rest : List Chunk) (msg : String)
    (hgood : ∀ c ∈ good, gen c = .ok (pairsOf c))
    (hbad : gen bad = .error msg) :
    handleGenerateAllQa gen (good ++ bad :: rest) =
      ⟨good.map (fun c => (c.id, pairsOf c)),
       (0, (good ++ bad :: rest).length) ::
         (List.range good.length).map (fun i => (i + 1, (good ++ bad :: rest).length)),
       List.replicate good.length 5000,
       good.map (fun c => c.id) ++ [bad.id],
       some ("Error on chunk #" ++ toString bad.id ++ ": " ++ msg ++
         ". Halting process.")⟩ ∧
    (∀ chunksAll : List Chunk, (∀ c ∈ chunksAll, gen c = .ok (pairsOf c)) →
      chunksAll ≠ [] →
      handleGenerateAllQa gen chunksAll =
        ⟨chunksAll.map (fun c => (c.id, pairsOf c)),
         (0, chunksAll.length) ::
           (List.range chunksAll.length).map (fun i => (i + 1, chunksAll.length)),
         List.replicate (chunksAll.length - 1) 5000,
         chunksAll.map (fun c => c.id),
         none⟩) := by
  constructor
  · have hne : ¬ ((good ++ bad :: rest).length = 0) := by simp
    have hlt : 0 + good.length < (good ++ bad :: rest).length := by
      simp [List.length_append]
    rw [handleGenerateAllQa, if_neg hne]
    rw [runChunks_fail_spec gen pairsOf bad msg hbad good rest 0
      (good ++ bad :: rest).length hgood hlt]
    simp
  · intro chunksAll hall hne
    have hne' : ¬ (chunksAll.length = 0) := fun h => hne (List.length_eq_zero.mp h)
    rw [handleGenerateAllQa, if_neg hne']
    rw [runChunks_ok_spec gen pairsOf chunksAll 0 chunksAll.length hall (by omega)]
    simp

/-- Witness for C5: the spec's 3-chunk scenario where chunk 2 fails — chunk 1
stays cached, chunk 3 is never attempted, the last progress report is (1,3)
and the error names chunk 2. -/
theorem batch_orchestration_witness :
    handleGenerateAllQa
        (fun c => if c.id = 2 then .error "boom" else .ok [⟨"Q?", "A"⟩])
        ([⟨1, 1, 2, none⟩] ++ (⟨2, 3, 4, none⟩ : Chunk) :: [⟨3, 5, 6, none⟩]) =
      ⟨[(1, [⟨"Q?", "A"⟩])],
       (0, 3) :: [(1, 3)],
       [5000],
       [1, 2],
       some "Error on chunk #2: boom. Halting process."⟩ := by
  have h := (batch_orchestration
    (fun c => if c.id = 2 then .error "boom" else .ok [⟨"Q?", "A"⟩])
    (fun _ => [⟨"Q?", "A"⟩])
    [⟨1, 1, 2, none⟩] ⟨2, 3, 4, none⟩ [⟨3, 5, 6, none⟩] "boom"
    (by intro c hc; rw [List.mem_singleton.mp hc]; rfl) rfl).1
  simpa using h

/-- A tiling forces `lo ≤ hi + 1`. -/
theorem tiles_lo_le {lo hi : Nat} {rs : List (Nat × Nat)} (h : tiles lo hi rs) :
    lo ≤ hi + 1 := by
  cases rs with
  | nil => simp only [tiles] at h; omega
  | cons r rs => simp only [tiles] at h; omega

/-- Tilings of adjacent intervals concatenate. -/
theorem tiles_append (m hi : Nat) :
    ∀ (A : List (Nat × Nat)) (lo : Nat) (B : List (Nat × Nat)),
      tiles lo m A → tiles (m + 1) hi B → tiles lo hi (A ++ B) := by
  intro A
  induction A with
  | nil =>
    intro lo B hA hB
    simp only [tiles] at hA
    subst hA
    simpa using hB
  | cons r A ih =>
    intro lo B hA hB
    simp only [tiles] at hA
    obtain ⟨h1, h2, h3, h4⟩ := hA
    have hm : m ≤ hi := by have := tiles_lo_le hB; omega
    simp only [List.cons_append, tiles]
    exact ⟨h1, h2, by omega, ih (r.2 + 1) B h4 hB⟩

/-- The greedy sub-split loop tiles its page range. -/
theorem splitSectionAux_tiles (e : Nat) (t : String) :
    ∀ (fuel s : Nat), s ≤ e + 1 → e + 1 - s ≤ fuel →
      tiles s e ((splitSectionAux e t fuel s).map PreChunk.range) := by
  intro fuel
  induction fuel with
  | zero =>
    intro s hs hf
    have hse : s = e + 1 := by omega
    subst hse
    simp [splitSectionAux, tiles]
  | succ f ih =>
    intro s hs hf
    by_cases hse : s ≤ e
    · simp only [splitSectionAux, if_pos hse, List.map_cons, tiles, PreChunk.range]
      refine ⟨by trivial, ?_, ?_, ?_⟩
      · simp only [MAX_CHUNK_PAGES]; omega
      · simp only [MAX_CHUNK_PAGES]; omega
      · exact ih (min (s + MAX_CHUNK_PAGES - 1) e + 1)
          (by simp only [MAX_CHUNK_PAGES]; omega)
          (by simp only [MAX_CHUNK_PAGES]; omega)
    · have hse' : s = e + 1 := by omega
      subst hse'
      simp [splitSectionAux, tiles]

/-- Every sub-range the loop emits spans at most `MAX_CHUNK_PAGES` pages and
carries the section's title. -/
theorem splitSectionAux_mem (e : Nat) (t : String) :
    ∀ (fuel s : Nat) (c : PreChunk), c ∈ splitSectionAux e t fuel s →
      c.endPage + 1 - c.startPage ≤ MAX_CHUNK_PAGES ∧ c.contextTitle = t := by
  intro fuel
  induction fuel with
  | zero => intro s c hc; simp [splitSectionAux] at hc
  | succ f ih =>
    intro s c hc
    by_cases hse : s ≤ e
    · simp only [splitSectionAux, if_pos hse, List.mem_cons] at hc
      rcases hc with rfl | hc
      · exact ⟨by simp only [MAX_CHUNK_PAGES]; omega, rfl⟩
      · exact ih _ c hc
    · simp [splitSectionAux, hse] at hc

/-- With strictly increasing pages, all at least 1 and at most `N`, no section
is dropped and the sections tile from the first bookmark's page to `N`. -/
theorem sections_tiles (N : Nat) :
    ∀ (bs : List Bookmark), bs.Pairwise (fun a b => a.page < b.page) →
      (∀ b ∈ bs, 1 ≤ b.page ∧ b.page ≤ N) →
      ∀ b0 rest, bs = b0 :: rest →
        tiles b0.page N ((sections N bs).map PreChunk.range) := by
  intro bs
  induction bs with
  | nil =>
    intro _ _ b0 rest h
    exact absurd h (by simp)
  | cons b btail ih =>
    intro hsorted hbound b0 rest heq
    injection heq with hb hrest
    subst hb
    subst hrest
    rcases btail with _ | ⟨b2, btail'⟩
    · have hb := hbound b (by simp)
      simp only [sections, if_pos hb.2, List.map_cons, List.map_nil, tiles,
        PreChunk.range]
      exact ⟨by trivial, hb.2, le_refl N, by trivial⟩
    · have hpair := List.pairwise_cons.mp hsorted
      have hlt : b.page < b2.page := hpair.1 b2 (by simp)
      have hb2 := hbound b2 (by simp)
      have hcond : b.page ≤ b2.page - 1 := by omega
      have htail := ih hpair.2 (fun x hx => hbound x (List.mem_cons_of_mem b hx))
        b2 btail' rfl
      simp only [sections, if_pos hcond, List.singleton_append, List.map_cons,
        tiles, PreChunk.range]
      refine ⟨by trivial, hcond, by omega, ?_⟩
      have hstep : b2.page - 1 + 1 = b2.page := by omega
      rw [hstep]
      exact htail

/-- Every section's title is some bookmark's title. -/
theorem sections_mem_title (N : Nat) :
    ∀ (bs : List Bookmark) (s : PreChunk), s ∈ sections N bs →
      ∃ b ∈ bs, s.contextTitle = b.title := by
  intro bs
  induction bs with
  | nil => intro s hs; simp [sections] at hs
  | cons b btail ih =>
    intro s hs
    rcases btail with _ | ⟨b2, btail'⟩
    · simp only [sections] at hs
      split_ifs at hs with hc
      · rw [List.mem_singleton.mp hs]
        exact ⟨b, by simp, rfl⟩
      · simp at hs
    · simp only [sections, List.mem_append] at hs
      rcases hs with hs | hs
      · split_ifs at hs with hc
        · rw [List.mem_singleton.mp hs]
          exact ⟨b, by simp, rfl⟩
        · simp at hs
      · obtain ⟨b', hb', ht⟩ := ih s hs
        exact ⟨b', by simp [hb'], ht⟩

/-- Sub-splitting a tiled section list tiles the same interval. -/
theorem flatMap_splitSection_tiles :
    ∀ (secs : List PreChunk) (lo hi : Nat),
      tiles lo hi (secs.map PreChunk.range) →
      tiles lo hi ((secs.flatMap splitSection).map PreChunk.range) := by
  intro secs
  induction secs with
  | nil => intro lo hi h; simpa using h
  | cons s rest ih =>
    intro lo hi h
    simp only [List.map_cons, tiles, PreChunk.range] at h
    obtain ⟨h1, h2, h3, h4⟩ := h
    have hsplit : tiles s.startPage s.endPage ((splitSection s).map PreChunk.range) := by
      simp only [splitSection]
      exact splitSectionAux_tiles s.endPage s.contextTitle _ s.startPage
        (by omega) (by omega)
    rw [List.flatMap_cons, List.map_append]
    subst h1
    exact tiles_append s.endPage hi _ _ _ hsplit (ih _ _ h4)

/-- Every emitted sub-range spans at most `MAX_CHUNK_PAGES` pages and carries
the title of the section it came from. -/
theorem flatMap_splitSection_mem (secs : List PreChunk) (c : PreChunk)
    (hc : c ∈ secs.flatMap splitSection) :
    ∃ s ∈ secs, c.endPage + 1 - c.startPage ≤ MAX_CHUNK_PAGES ∧
      c.contextTitle = s.contextTitle := by
  rw [List.mem_flatMap] at hc
  obtain ⟨s, hs, hcs⟩ := hc
  have h := splitSectionAux_mem s.endPage s.contextTitle _ _ c
    (by simpa [splitSection] using hcs)
  exact ⟨s, hs, h.1, h.2⟩

/-- Reassigning ids does not change the covered ranges. -/
theorem assignIds_ranges : ∀ (k : Nat) (l : List PreChunk),
    (assignIds k l).map Chunk.range = l.map PreChunk.range := by
  intro k l
  induction l generalizing k with
  | nil => rfl
  | cons c cs ih => simp [assignIds, Chunk.range, PreChunk.range, ih]

/-- Ids are assigned consecutively from `k`. -/
theorem assignIds_ids : ∀ (k : Nat) (l : List PreChunk),
    (assignIds k l).map Chunk.id = List.range' k l.length := by
  intro k l
  induction l generalizing k with
  | nil => rfl
  | cons c cs ih =>
    simp only [assignIds, List.map_cons, List.length_cons, List.range']
    rw [ih]

/-- Reassigning ids preserves length. -/
theorem assignIds_length (k : Nat) (l : List PreChunk) :
    (assignIds k l).length = l.length := by
  induction l generalizing k with
  | nil => rfl
  | cons c cs ih => simp [assignIds, ih]

/-- Every chunk with an id corresponds to a pre-chunk with the same pages and
title. -/
theorem assignIds_mem : ∀ (k : Nat) (l : List PreChunk) (c : Chunk),
    c ∈ assignIds k l → ∃ c' ∈ l, c.startPage = c'.startPage ∧
      c.endPage = c'.endPage ∧ c.contextTitle = some c'.contextTitle := by
  intro k l
  induction l generalizing k with
  | nil => intro c hc; simp [assignIds] at hc
  | cons c0 cs ih =>
    intro c hc
    simp only [assignIds, List.mem_cons] at hc
    rcases hc with rfl | hc
    · exact ⟨c0, by simp, rfl, rfl, rfl⟩
    · obtain ⟨c', hc', h⟩ := ih (k + 1) c hc
      exact ⟨c', by simp [hc'], h⟩

/-- Deduplication only drops elements. -/
theorem dedupeByPageAux_sublist : ∀ (l : List Bookmark) (seen : List Nat),
    (dedupeByPageAux seen l).Sublist l := by
  intro l
  induction l with
  | nil => intro seen; simp [dedupeByPageAux]
  | cons b rest ih =>
    intro seen
    simp only [dedupeByPageAux]
    split_ifs
    · exact (ih seen).cons b
    · exact (ih (b.page :: seen)).cons₂ b

/-- No kept bookmark's page was already seen. -/
theorem dedupeByPageAux_not_seen : ∀ (l : List Bookmark) (seen : List Nat)
    (x : Bookmark), x ∈ dedupeByPageAux seen l → x.page ∉ seen := by
  intro l
  induction l with
  | nil => intro seen x hx; simp [dedupeByPageAux] at hx
  | cons b rest ih =>
    intro seen x hx
    simp only [dedupeByPageAux] at hx
    split_ifs at hx with hb
    · exact ih seen x hx
    · rcases List.mem_cons.mp hx with rfl | hx
      · exact hb
      · exact fun hcon => (ih _ x hx) (List.mem_cons_of_mem _ hcon)

/-- The kept bookmarks have pairwise distinct pages. -/
theorem dedupeByPageAux_distinct : ∀ (l : List Bookmark) (seen : List Nat),
    (dedupeByPageAux seen l).Pairwise (fun a b => a.page ≠ b.page) := by
  intro l
  induction l with
  | nil => intro seen; simp [dedupeByPageAux]
  | cons b rest ih =>
    intro seen
    simp only [dedupeByPageAux]
    split_ifs with hb
    · exact ih seen
    · refine List.pairwise_cons.mpr ⟨?_, ih _⟩
      intro x hx hcon
      exact (dedupeByPageAux_not_seen rest (b.page :: seen) x hx)
        (by rw [← hcon]; exact List.mem_cons_self _ _)

/-- C1: for a non-empty resolved bookmark list over an `N`-page document whose
pages all lie in `1..N` and include page 1, `autoSplitPdf`'s chunk list tiles
pages `1..N` (contiguous, non-overlapping, covering, in page order), every
chunk spans at most `MAX_CHUNK_PAGES` pages and inherits some bookmark's title,
and the ids are `1..count` in output (= page) order. -/
theorem autoSplit_correct (bs : List Bookmark) (N : Nat)
    (hne : bs ≠ [])
    (hpages : ∀ b ∈ bs, 1 ≤ b.page ∧ b.page ≤ N)
    (hfirst : ∃ b ∈ bs, b.page = 1) :
    tiles 1 N ((autoSplitChunks bs N).map Chunk.range) ∧
    (∀ c ∈ autoSplitChunks bs N,
      c.endPage + 1 - c.startPage ≤ MAX_CHUNK_PAGES ∧
      ∃ b ∈ bs, c.contextTitle = some b.title) ∧
    (autoSplitChunks bs N).map Chunk.id =
      List.range' 1 (autoSplitChunks bs N).length := by
  have hperm : (sortBookmarks bs).Perm bs := List.mergeSort_perm bs _
  have hsorted : (sortBookmarks bs).Pairwise (fun a b => a.page ≤ b.page) := by
    have h := @List.sorted_mergeSort Bookmark
      (fun a b : Bookmark => decide (a.page ≤ b.page))
      (fun a b c hab hbc => by simp only [decide_eq_true_eq] at *; omega)
      (fun a b => by simp only [Bool.or_eq_true, decide_eq_true_eq]; omega) bs
    exact h.imp (fun hab => by simpa using hab)
  obtain ⟨b0, rest, hsd⟩ : ∃ b0 rest, sortBookmarks bs = b0 :: rest := by
    rcases h : sortBookmarks bs with _ | ⟨b0, rest⟩
    · exfalso
      have hl := hperm.length_eq
      rw [h] at hl
      exact hne (List.length_eq_zero.mp hl.symm)
    · exact ⟨b0, rest, rfl⟩
  have hb0_mem : b0 ∈ bs := hperm.mem_iff.mp (by rw [hsd]; exact List.mem_cons_self b0 rest)
  have hb0_min : ∀ x ∈ sortBookmarks bs, b0.page ≤ x.page := by
    intro x hx
    rw [hsd] at hx
    rcases List.mem_cons.mp hx with rfl | hx
    · exact le_refl _
    · have := hsorted
      rw [hsd] at this
      exact (List.pairwise_cons.mp this).1 x hx
  have hb0_page : b0.page = 1 := by
    obtain ⟨b1, hb1, hb1page⟩ := hfirst
    have hb1s : b1 ∈ sortBookmarks bs := hperm.mem_iff.mpr hb1
    have h1 := hb0_min b1 hb1s
    have h2 := (hpages b0 hb0_mem).1
    omega
  have hdd_sub : (dedupeByPage (sortBookmarks bs)).Sublist (sortBookmarks bs) :=
    dedupeByPageAux_sublist _ []
  have hdd_le : (dedupeByPage (sortBookmarks bs)).Pairwise
      (fun a b => a.page ≤ b.page) :=
    List.Pairwise.sublist hdd_sub hsorted
  have hdd_ne : (dedupeByPage (sortBookmarks bs)).Pairwise
      (fun a b => a.page ≠ b.page) :=
    dedupeByPageAux_distinct _ []
  have hdd_lt : (dedupeByPage (sortBookmarks bs)).Pairwise
      (fun a b => a.page < b.page) :=
    (hdd_le.and hdd_ne).imp (fun h => lt_of_le_of_ne h.1 h.2)
  have hdd_bound : ∀ b ∈ dedupeByPage (sortBookmarks bs), 1 ≤ b.page ∧ b.page ≤ N :=
    fun b hb => hpages b (hperm.mem_iff.mp (hdd_sub.subset hb))
  have hdd : dedupeByPage (sortBookmarks bs) =
      b0 :: dedupeByPageAux [b0.page] rest := by
    rw [hsd]
    simp [dedupeByPage, dedupeByPageAux]
  have hsec : tiles b0.page N
      ((sections N (dedupeByPage (sortBookmarks bs))).map PreChunk.range) :=
    sections_tiles N _ hdd_lt hdd_bound b0 _ hdd
  rw [hb0_page] at hsec
  have hflat := flatMap_splitSection_tiles _ _ _ hsec
  refine ⟨?_, ?_, ?_⟩
  · simp only [autoSplitChunks]
    rw [assignIds_ranges]
    exact hflat
  · intro c hc
    simp only [autoSplitChunks] at hc
    obtain ⟨c', hc', hcs, hce, hct⟩ := assignIds_mem 1 _ c hc
    obtain ⟨s, hsmem, hspan, htitle⟩ := flatMap_splitSection_mem _ c' hc'
    obtain ⟨b, hbmem, hbt⟩ := sections_mem_title N _ s hsmem
    refine ⟨by omega, b, hperm.mem_iff.mp (hdd_sub.subset hbmem), ?_⟩
    rw [hct, htitle, hbt]
  · simp only [autoSplitChunks]
    rw [assignIds_ids, assignIds_length]

/-- Witness for C1 at the spec's §8 example: bookmarks at pages 1, 5, 5, 12 of
a 14-page document. -/
theorem autoSplit_correct_witness :
    tiles 1 14 ((autoSplitChunks
        [⟨"A", 1⟩, ⟨"B", 5⟩, ⟨"C", 5⟩, ⟨"D", 12⟩] 14).map Chunk.range) ∧
    (∀ c ∈ autoSplitChunks [⟨"A", 1⟩, ⟨"B", 5⟩, ⟨"C", 5⟩, ⟨"D", 12⟩] 14,
      c.endPage + 1 - c.startPage ≤ MAX_CHUNK_PAGES ∧
      ∃ b ∈ [(⟨"A", 1⟩ : Bookmark), ⟨"B", 5⟩, ⟨"C", 5⟩, ⟨"D", 12⟩],
        c.contextTitle = some b.title) ∧
    (autoSplitChunks [⟨"A", 1⟩, ⟨"B", 5⟩, ⟨"C", 5⟩, ⟨"D", 12⟩] 14).map Chunk.id =
      List.range' 1 (autoSplitChunks [⟨"A", 1⟩, ⟨"B", 5⟩, ⟨"C", 5⟩, ⟨"D", 12⟩] 14).length :=
  autoSplit_correct [⟨"A", 1⟩, ⟨"B", 5⟩, ⟨"C", 5⟩, ⟨"D", 12⟩] 14
    (by decide) (by decide) ⟨⟨"A", 1⟩, by decide, rfl⟩

/-- C8: an outline that exists but yields zero resolved bookmarks is a hard
failure — the distinct `Auto-split error:` message is surfaced and the chunk
list is cleared rather than left with partial results — while a document with
no outline takes the early-return path: auto-split is simply unavailable and
the chunk list is untouched (hence still empty when it was empty); the two
cases are different `SplitOutcome` constructors, and differ from success. -/
theorem outline_failure_distinction (numPages : Nat) (prev : List Chunk)
    (resolved : List Bookmark) (hres : resolved = []) :
    (autoSplitPdf true resolved numPages =
      .failed "Auto-split error: Failed to extract structure from outline. Please use manual splitting." ∧
     chunksAfterSplit (autoSplitPdf true resolved numPages) prev = []) ∧
    (autoSplitPdf false resolved numPages = .unavailable ∧
     chunksAfterSplit (autoSplitPdf false resolved numPages) prev = prev) ∧
    (∀ msg cs, SplitOutcome.failed msg ≠ .unavailable ∧
      SplitOutcome.ok cs ≠ .unavailable ∧ SplitOutcome.failed msg ≠ .ok cs) := by
  subst hres
  refine ⟨⟨rfl, rfl⟩, ⟨rfl, rfl⟩, fun msg cs => ⟨by simp, by simp, by simp⟩⟩

/-- Witness for C8: an empty resolution on a 10-page document with one stale
chunk. -/
theorem outline_failure_distinction_witness :
    (autoSplitPdf true [] 10 =
      .failed "Auto-split error: Failed to extract structure from outline. Please use manual splitting." ∧
     chunksAfterSplit (autoSplitPdf true [] 10) [⟨1, 1, 2, none⟩] = []) ∧
    (autoSplitPdf false [] 10 = .unavailable ∧
     chunksAfterSplit (autoSplitPdf false [] 10) [⟨1, 1, 2, none⟩] = [⟨1, 1, 2, none⟩]) ∧
    (∀ msg cs, SplitOutcome.failed msg ≠ .unavailable ∧
      SplitOutcome.ok cs ≠ .unavailable ∧ SplitOutcome.failed msg ≠ .ok cs) :=
  outline_failure_distinction 10 [⟨1, 1, 2, none⟩] [] rfl

/-- The claim's "chunk-list order" fails on the code: the cache is flattened
in ascending-id order, but after out-of-page-order manual adds the chunk list
(sorted by `startPage`) disagrees with id order.  Chunk 2 (pages 1–2, added
second) precedes chunk 1 (pages 5–6) in the list, yet the export emits chunk
1's pair first. -/
theorem export_order_counterexample :
    exportPairs [(1, [⟨"Q1?", "A1"⟩]), (2, [⟨"Q2?", "A2"⟩])] =
      [⟨"Q1?", "A1"⟩, ⟨"Q2?", "A2"⟩] ∧
    exportPairsListOrder [⟨2, 1, 2, none⟩, ⟨1, 5, 6, none⟩]
        [(1, [⟨"Q1?", "A1"⟩]), (2, [⟨"Q2?", "A2"⟩])] =
      [⟨"Q2?", "A2"⟩, ⟨"Q1?", "A1"⟩] ∧
    ([⟨2, 1, 2, none⟩, ⟨1, 5, 6, none⟩] : List Chunk).Pairwise
      (fun a b => a.startPage ≤ b.startPage) ∧
    ([(⟨"Q1?", "A1"⟩ : QAPair), ⟨"Q2?", "A2"⟩] : List QAPair) ≠
      [⟨"Q2?", "A2"⟩, ⟨"Q1?", "A1"⟩] := by
  refine ⟨by decide, by decide, ?_, by decide⟩
  simp

/-- Hex digits are never a newline. -/
theorem hexDigit_ne_newline (n : Nat) : hexDigit n ≠ '\n' := by
  rcases n with _|_|_|_|_|_|_|_|_|_|_|_|_|_|_|n <;> simp [hexDigit]

/-- No escape sequence contains a newline. -/
theorem jsonEscapeChar_no_newline (c : Char) : '\n' ∉ jsonEscapeChar c := by
  unfold jsonEscapeChar
  split_ifs with h1 h2 h3 h4 h5 h6 h7 h8
  · decide
  · decide
  · decide
  · decide
  · decide
  · decide
  · decide
  · intro hmem
    simp only [List.mem_cons, List.not_mem_nil, or_false] at hmem
    rcases hmem with h | h | h | h | h | h
    · exact absurd h (by decide)
    · exact absurd h (by decide)
    · exact absurd h (by decide)
    · exact absurd h (by decide)
    · exact hexDigit_ne_newline _ h.symm
    · exact hexDigit_ne_newline _ h.symm
  · intro hmem
    rw [List.mem_singleton] at hmem
    rw [← hmem] at h8
    exact h8 (by decide)

/-- A stringified string value contains no newline (escaping covers it). -/
theorem jsonQuote_no_newline (s : String) : '\n' ∉ (jsonQuote s).data := by
  intro hmem
  have hmem' : '\n' ∈ ('"' :: s.data.flatMap jsonEscapeChar ++ ['"']) := hmem
  rcases List.mem_cons.mp hmem' with h | h
  · exact absurd h (by decide)
  · rcases List.mem_append.mp h with h | h
    · obtain ⟨c, _, hnl⟩ := List.mem_flatMap.mp h
      exact jsonEscapeChar_no_newline c hnl
    · exact absurd h (by decide)

/-- An export line contains no newline, so the newline-joined file really is
one JSON object per line. -/
theorem stringifyLine_no_newline (p : QAPair) : '\n' ∉ (stringifyLine p).data := by
  intro hmem
  simp only [stringifyLine, String.data_append, List.mem_append] at hmem
  rcases hmem with (((h | h) | h) | h) | h
  · exact absurd h (by decide)
  · exact jsonQuote_no_newline _ h
  · exact absurd h (by decide)
  · exact jsonQuote_no_newline _ h
  · exact absurd h (by decide)

/-- C4 (amended: the pairs are concatenated in ascending chunk-id order — the
JS object's numeric-key iteration order — not in chunk-list order, which can
differ after out-of-page-order manual adds): a non-empty cache exports a file
named `qa_dataset.json` whose content is the newline-join of one
`{"messages":[{"role":"user",...},{"role":"model",...}]}` JSON object per
cached pair; no line contains a newline; an empty cache exports nothing; and
when the cache is already in ascending id order the pairs are exactly the
cached chunks' pairs concatenated in cache order. -/
theorem export_format (cache : List (Nat × List QAPair))
    (hne : exportPairs cache ≠ []) :
    handleSaveAllQa cache =
      some ("qa_dataset.json",
        String.intercalate "\n" ((exportPairs cache).map stringifyLine)) ∧
    (∀ p : QAPair, '\n' ∉ (stringifyLine p).data) ∧
    (∀ cache' : List (Nat × List QAPair),
      handleSaveAllQa cache' = none ↔ exportPairs cache' = []) ∧
    (cache.Pairwise (fun a b => a.1 < b.1) →
      exportPairs cache = (cache.map (fun e => e.2)).flatten) := by
  refine ⟨?_, stringifyLine_no_newline, ?_, ?_⟩
  · rw [handleSaveAllQa, if_neg (by simpa [List.length_eq_zero] using hne)]
  · intro cache'
    rw [handleSaveAllQa]
    split_ifs with h
    · exact ⟨fun _ => List.length_eq_zero.mp h, fun _ => rfl⟩
    · exact ⟨fun hsome => absurd hsome (by simp),
             fun hnil => absurd (by simp [hnil]) h⟩
  · intro hsorted
    have heq : List.insertionSort (fun a b => a.1 ≤ b.1) cache = cache :=
      List.Sorted.insertionSort_eq (hsorted.imp (fun h => le_of_lt h))
    simp [exportPairs, qaCacheValues, heq]

/-- Witness for C4 at the spec's two-chunk cache. -/
theorem export_format_witness :
    handleSaveAllQa [(1, [⟨"Q1?", "A1"⟩]), (2, [⟨"Q2?", "A2"⟩])] =
      some ("qa_dataset.json",
        String.intercalate "\n"
          ((exportPairs [(1, [⟨"Q1?", "A1"⟩]), (2, [⟨"Q2?", "A2"⟩])]).map stringifyLine)) ∧
    (∀ p : QAPair, '\n' ∉ (stringifyLine p).data) ∧
    (∀ cache' : List (Nat × List QAPair),
      handleSaveAllQa cache' = none ↔ exportPairs cache' = []) ∧
    (([(1, [⟨"Q1?", "A1"⟩]), (2, [⟨"Q2?", "A2"⟩])] :
        List (Nat × List QAPair)).Pairwise (fun a b => a.1 < b.1) →
      exportPairs [(1, [⟨"Q1?", "A1"⟩]), (2, [⟨"Q2?", "A2"⟩])] =
        (([(1, [⟨"Q1?", "A1"⟩]), (2, [⟨"Q2?", "A2"⟩])] :
          List (Nat × List QAPair)).map (fun e => e.2)).flatten) :=
  export_format [(1, [⟨"Q1?", "A1"⟩]), (2, [⟨"Q2?", "A2"⟩])] (by decide)
